import Mathlib

/-!
# Verification of the nectime session/consolidation engine

Shallow embedding of `nectime.py` (classes `SessionManager`, `LocalLogger`,
functions `consolidate_entries`, `is_weekday`, `get_weekdays_in_range`,
and the rounding pass of `cmd_push`).

Modelling conventions, shared by all definitions below:

* A naive Python `datetime` is modelled as an `Int`: the number of seconds
  since some fixed local midnight.  Subtraction of naive datetimes
  (`total_seconds()`) is exact integer arithmetic on this representation,
  and `.date()` is flooring division by 86400 (the epoch is a midnight).
* A calendar date string `"YYYY-MM-DD"` is modelled as an `Int`: the day
  number since 1970-01-01 (a Thursday).  The operations the source applies
  to date strings — equality, lexicographic `<=` ordering, `weekday()`,
  "+1 day" — all transport along this bijection, so the model is faithful.
* Python floats are modelled by their exact values, as unreduced fractions
  (`PyFloat` below).  Every float the engine computes is exactly such a
  fraction, and every concrete computation relied on below stays far from
  any float rounding boundary.
* A Python `dict` is modelled as an association list with (in any reachable
  state) pairwise-distinct keys, in insertion order; `d[k] = v` replaces in
  place when the key is present and appends otherwise, `d.pop(k)` removes
  the key's binding.
* Python `int()` applied to a nonnegative value is flooring; `round()` is
  round-half-to-even.
* `project_id` is modelled as a `Nat` where `0` plays the role of both
  Python `None` and `0` (the source only ever tests its truthiness, and
  both are falsy).
-/

namespace Nectime

/-- The exact value of a Python float, as an unreduced fraction (every float
the engine manipulates is an integer, or a ratio of two integers, or an
integer times such a ratio — all exactly representable here).  Every
constructed value has a positive denominator. -/
structure PyFloat where
  num : Int
  den : Int
  deriving Repr, DecidableEq

/-- The rational number a `PyFloat` denotes. -/
def PyFloat.toRat (x : PyFloat) : Rat := (x.num : Rat) / (x.den : Rat)

/-- The float `1.0`. -/
def PyFloat.one : PyFloat := ⟨1, 1⟩

/-- Float division of two integers (`a / b`). -/
def PyFloat.ratio (a b : Int) : PyFloat := ⟨a, b⟩

/-- An integer times a float (`total_minutes * ratio`). -/
def PyFloat.mulInt (t : Int) (x : PyFloat) : PyFloat := ⟨t * x.num, x.den⟩

/-- Python `int(x)` for a float: truncation toward zero (for the positive
denominators constructed here, `Int.tdiv` is exactly that truncation). -/
def pyInt (x : PyFloat) : Int := x.num.tdiv x.den

/-- Python `round(a / b)` for integers with `b > 0`: round half to even
(banker's rounding).  `f` is the floor of the quotient and the fractional
part `(a - f*b)/b` is compared with `1/2` by cross-multiplication.  Python
rounds the exact value of the float; every use below feeds it quotients
whose float computation is exact or far from a rounding boundary. -/
def pyRoundDiv (a b : Int) : Int :=
  let f := a / b
  let r2 := 2 * (a - f * b)
  if r2 < b then f
  else if b < r2 then f + 1
  else if f % 2 = 0 then f else f + 1

/-- Python truthiness of an optional string (`None` and `""` are falsy). -/
def strTruthy : Option String → Bool
  | none => false
  | some s => !(s == "")

/-- Python `a or b` for an optional string `a` and default `b`. -/
def pyOrStr (a : Option String) (b : String) : String :=
  match a with
  | none => b
  | some s => if s == "" then b else s

/-- `datetime.date()` on the seconds-since-epoch-midnight representation. -/
def dateOf (t : Int) : Int := t / 86400

/-- `is_weekday` (nectime.py line 886): `dt.weekday() < 5`.
Day 0 = 1970-01-01 was a Thursday, so `weekday = (d + 3) mod 7`. -/
def is_weekday (d : Int) : Bool := (d + 3) % 7 < 5

/-- The consecutive day numbers from `s` to `e` inclusive
(the `while current <= end` loop of `get_weekdays_in_range`). -/
def dateRange (s e : Int) : List Int :=
  (List.range (e - s + 1).toNat).map (fun i => s + Int.ofNat i)

/-- `get_weekdays_in_range` (nectime.py line 892). -/
def get_weekdays_in_range (s e : Int) : List Int :=
  (dateRange s e).filter is_weekday

/-- One record of `activity_log` (nectime.py line 215): the `"%H:%M"` time
string is modelled as the minute of the day. -/
structure ActivityObs where
  timeHM : Int
  files : List String
  estimate : String
  deriving Repr, DecidableEq

/-- One in-progress session (the dict built by `SessionManager.start`,
nectime.py line 192).  `description` and `gitCommits` model keys that other
commands may add to the session dict (absent keys read as `none`/`[]`). -/
structure Session where
  beginT : Int
  folder : String
  folderType : String
  projectId : Nat
  projectName : Option String
  lastActivity : Int
  activityLog : List ActivityObs
  activityBreakdown : List (String × Int)
  currentActivityEstimate : Option String := none
  description : Option String := none
  gitCommits : List String := []
  deriving Repr, DecidableEq

/-- The session registry: the `sessions.json` dict, as an insertion-ordered
association list (keys pairwise distinct in every reachable state). -/
abbrev Registry := List (String × Session)

/-- `self.sessions.get(sid)`. -/
def lookupSid (sessions : Registry) (sid : String) : Option Session :=
  (sessions.find? (fun p => p.1 = sid)).map (fun p => p.2)

/-- `self.sessions[sid] = s` on a dict: replace in place if the key is
present, append otherwise. -/
def setKey (sessions : Registry) (sid : String) (s : Session) : Registry :=
  if (sessions.find? (fun p => p.1 = sid)).isSome then
    sessions.map (fun p => if p.1 = sid then (sid, s) else p)
  else sessions ++ [(sid, s)]

/-- `SessionManager._get_session` (nectime.py line 139), returning the
effective session id together with the session: with an explicit id, a plain
dict lookup; without one, the single session of the given (normalized)
folder if exactly one exists, else `None`. -/
def get_session (sessions : Registry) (folder : String)
    (sessionId : Option String) : Option (String × Session) :=
  match sessionId with
  | some sid => (lookupSid sessions sid).map (fun s => (sid, s))
  | none =>
    match sessions.filter (fun p => p.2.folder = folder) with
    | [p] => some p
    | _ => none

/-- `SessionManager._set_session` (nectime.py line 158), given the effective
session id (`_get_effective_sid`): no-op without an id; with one, remove the
binding (`data = None`) or write it. -/
def set_session (sessions : Registry) (effSid : Option String)
    (data : Option Session) : Registry :=
  match effSid with
  | none => sessions
  | some sid =>
    match data with
    | none => sessions.filter (fun p => ¬ p.1 = sid)
    | some s => setKey sessions sid s

/-- `SessionManager.start` (nectime.py line 185): fails if a session
resolves for this id/folder, else records a fresh session with
`begin = last_activity = now`.  Without an explicit id no session resolved,
so `_inferred_sid` is unset and the effective id is the explicit one. -/
def SessionManager.start (sessions : Registry) (folder : String)
    (sessionId : Option String) (now : Int) (folderType : String)
    (projectId : Nat) (projectName : Option String) :
    Except String (Registry × Session) :=
  if (get_session sessions folder sessionId).isSome then
    .error "Session déjà active pour ce folder+process."
  else
    let session : Session :=
      { beginT := now, folder := folder, folderType := folderType,
        projectId := projectId, projectName := projectName,
        lastActivity := now, activityLog := [], activityBreakdown := [] }
    .ok (set_session sessions sessionId (some session), session)

/-- `activity_breakdown[estimate] += 1` with creation at 0 (nectime.py
lines 220-222). -/
def bumpBreakdown (bd : List (String × Int)) (k : String) :
    List (String × Int) :=
  if (bd.find? (fun p => p.1 = k)).isSome then
    bd.map (fun p => if p.1 = k then (p.1, p.2 + 1) else p)
  else bd ++ [(k, 1)]

/-- `SessionManager.update_activity` (nectime.py line 205): no-op when no
session resolves; otherwise refresh `last_activity` to now and, when a
truthy estimate is supplied, append an observation, bump the estimate's
accumulator and make it current. -/
def update_activity (sessions : Registry) (folder : String)
    (sessionId : Option String) (now : Int) (files : List String)
    (estimate : Option String) : Registry :=
  match get_session sessions folder sessionId with
  | none => sessions
  | some (sid, s) =>
    let s1 := { s with lastActivity := now }
    let s2 :=
      if strTruthy estimate then
        let est := estimate.getD ""
        { s1 with
          activityLog := s1.activityLog ++
            [{ timeHM := now % 86400 / 60, files := files, estimate := est }],
          activityBreakdown := bumpBreakdown s1.activityBreakdown est,
          currentActivityEstimate := some est }
      else s1
    set_session sessions (some sid) (some s2)

/-- The `session_data` dict returned by `stop` and built by orphan
reclamation: the session's fields plus `end`, `billed_minutes`,
`real_minutes` and (for reclaimed sessions and `cmd_stop`) `activity`. -/
structure StoppedSession where
  session : Session
  endT : Int
  billedMinutes : Int
  realMinutes : Int
  activity : Option String := none
  deriving Repr, DecidableEq

/-- `SessionManager.stop` (nectime.py line 227): fails when no session
resolves; else `end = now`, `billed = int((end-begin)/60)` (truncating, as
Python `int()` does), `real = int((last_activity-begin)/60)`, and the
session is removed from the registry. -/
def SessionManager.stop (sessions : Registry) (folder : String)
    (sessionId : Option String) (now : Int) :
    Except String (Registry × StoppedSession) :=
  match get_session sessions folder sessionId with
  | none => .error "Aucune session active pour ce folder+process."
  | some (sid, s) =>
    .ok (set_session sessions (some sid) none,
      { session := s, endT := now,
        billedMinutes := (now - s.beginT).tdiv 60,
        realMinutes := (s.lastActivity - s.beginT).tdiv 60 })

/-- `SessionManager.cancel` (nectime.py line 246): remove the resolved
session with no log side effect. -/
def SessionManager.cancel (sessions : Registry) (folder : String)
    (sessionId : Option String) : Registry :=
  match get_session sessions folder sessionId with
  | none => sessions
  | some (sid, _) => set_session sessions (some sid) none

/-- One entry of the local log (`LocalLogger.add_entry`, nectime.py line 362). -/
structure LogEntry where
  date : Int
  folder : String
  folderType : String
  projectId : Nat
  projectName : Option String
  activity : String
  beginT : Int
  endT : Int
  billedMinutes : Int
  realMinutes : Int
  pushedToKimai : Bool
  description : Option String
  gitCommits : List String
  filledFrom : Option Int := none
  deriving Repr, DecidableEq

/-- The local log: entries plus the per-day totals
(`{"entries": [], "daily_totals": {}}`, nectime.py line 351). -/
structure LocalLog where
  entries : List LogEntry
  dailyTotals : List (Int × Int × Int)
  deriving Repr, DecidableEq

/-- Update of `daily_totals[date]` (nectime.py lines 381-384):
create the date's bucket at `(0, 0)` if absent, then add the minutes. -/
def bumpTotal (totals : List (Int × Int × Int)) (date : Int) (b r : Int) :
    List (Int × Int × Int) :=
  if (totals.find? (fun p => p.1 = date)).isSome then
    totals.map (fun p => if p.1 = date then (p.1, p.2.1 + b, p.2.2 + r) else p)
  else
    totals ++ [(date, b, r)]

/-- The entry dict `LocalLogger.add_entry` builds (nectime.py line 362):
the date is derived from the begin timestamp's calendar day,
`activity` defaults to `"unknown"` when the key is absent. -/
def entry_of (sd : StoppedSession) (pushed : Bool) : LogEntry :=
  { date := dateOf sd.session.beginT, folder := sd.session.folder,
    folderType := sd.session.folderType,
    projectId := sd.session.projectId,
    projectName := sd.session.projectName,
    activity := sd.activity.getD "unknown",
    beginT := sd.session.beginT, endT := sd.endT,
    billedMinutes := sd.billedMinutes, realMinutes := sd.realMinutes,
    pushedToKimai := pushed, description := sd.session.description,
    gitCommits := sd.session.gitCommits }

/-- `LocalLogger.add_entry` (nectime.py line 358): append one entry and bump
that day's totals. -/
def add_entry (log : LocalLog) (sd : StoppedSession) (pushed : Bool) :
    LocalLog × LogEntry :=
  let entry := entry_of sd pushed
  ({ entries := log.entries ++ [entry],
     dailyTotals := bumpTotal log.dailyTotals entry.date entry.billedMinutes
       entry.realMinutes }, entry)

/-- The slice of `config.json` that the session engine reads. -/
structure Config where
  defaultActivity : Option String := none
  deriving Repr, DecidableEq

/-- The orphan criterion of `cleanup_old_sessions` (nectime.py line 303):
another calendar day than today, or strictly more than `max_hours` old. -/
def is_orphan (s : Session) (now maxHours : Int) : Bool :=
  !(dateOf s.beginT == dateOf now) || maxHours * 3600 < now - s.beginT

/-- The `session_data` an orphan is converted to (nectime.py lines 309-317):
`end = last_activity`, `billed = real = int((last_activity - begin)/60)`,
and the activity resolved as the code does: the current estimate if truthy,
else the config's `default_activity` (itself defaulting to
`"dev_applicatif"`) when a config is given, with a final
`or "dev_applicatif"` fallback. -/
def reclaim_data (s : Session) (config : Option Config) : StoppedSession :=
  let billed := (s.lastActivity - s.beginT).tdiv 60
  let activity0 := s.currentActivityEstimate
  let activity1 :=
    if ¬ strTruthy activity0 ∧ config.isSome then
      some (((config.getD {}).defaultActivity).getD "dev_applicatif")
    else activity0
  { session := s, endT := s.lastActivity, billedMinutes := billed,
    realMinutes := billed, activity := some (pyOrStr activity1 "dev_applicatif") }

/-- `SessionManager.cleanup_old_sessions` (nectime.py line 289): walk the
registry; every orphan is popped, converted and appended to the log (the
`logger` argument is the local log here), and reported in `closed`. -/
def cleanup_old_sessions (sessions : Registry) (log : LocalLog)
    (config : Option Config) (now : Int) (maxHours : Int := 12) :
    Registry × LocalLog × List (String × StoppedSession) :=
  match sessions with
  | [] => ([], log, [])
  | (sid, s) :: rest =>
    if is_orphan s now maxHours then
      let sd := reclaim_data s config
      let r := cleanup_old_sessions rest (add_entry log sd false).1 config now maxHours
      (r.1, r.2.1, (sid, sd) :: r.2.2)
    else
      let r := cleanup_old_sessions rest log config now maxHours
      ((sid, s) :: r.1, r.2.1, r.2.2)

/-- `LocalLogger.get_entries(date)` with a date given (nectime.py line 399). -/
def get_entries (log : LocalLog) (date : Int) : List LogEntry :=
  log.entries.filter (fun e => e.date = date)

/-- `LocalLogger.get_kimai_pushed_minutes` (nectime.py line 401). -/
def get_kimai_pushed_minutes (log : LocalLog) (date : Int) : Int :=
  ((get_entries log date).filter (fun e => e.pushedToKimai)).foldr
    (fun e acc => e.billedMinutes + acc) 0

/-- `LocalLogger.calculate_adjustment_ratio` (nectime.py line 408).
The returned float is the exact fraction it denotes. -/
def calculate_adjustment_ratio (log : LocalLog) (new_minutes : Int)
    (daily_limit : Int) (date : Int) (expand : Bool) : PyFloat :=
  let already_pushed := get_kimai_pushed_minutes log date
  if new_minutes ≤ 0 then .one
  else
    let total_if_pushed := already_pushed + new_minutes
    let remaining_capacity := max 0 (daily_limit - already_pushed)
    if daily_limit < total_if_pushed then
      .ratio remaining_capacity new_minutes
    else if expand ∧ total_if_pushed < daily_limit ∧ 0 < remaining_capacity then
      .ratio remaining_capacity new_minutes
    else .one

/-- The adjustment ratio exactly as claim C3 words it, as a function of the
already-pushed minutes: `remaining = max(0, limit - pushed)`; `remaining/raw`
when `raw + pushed > limit` (shrink); `remaining/raw` when expansion is
enabled, `raw + pushed < limit` and `remaining > 0` (expand); `1.0` in every
other case, including whenever `raw ≤ 0`. -/
def ratioSpecC3 (pushed raw limit : Int) (expand : Bool) : Rat :=
  let remaining := max 0 (limit - pushed)
  if raw ≤ 0 then 1
  else if limit < raw + pushed then (remaining : Rat) / (raw : Rat)
  else if expand ∧ raw + pushed < limit ∧ 0 < remaining then
    (remaining : Rat) / (raw : Rat)
  else 1

/-! ## Consolidation (`consolidate_entries`) and the `cmd_push` pipeline -/

/-- One consolidation group (`consolidate_entries`, nectime.py line 936),
keyed by (date, project id, activity).  The description/commit synthesis
fields are not modelled: no claim mentions them. -/
structure Group where
  date : Int
  projectId : Nat
  projectName : Option String
  folder : String
  activity : String
  entries : List LogEntry
  totalMinutes : Int
  firstBegin : Int
  lastEnd : Int
  deriving Repr, DecidableEq

/-- Adding one entry to the running group dict (nectime.py lines 931-963):
create the group at the entry's key if absent (dict insertion order:
appended at the end), then accumulate minutes and min/max the window. -/
def addEntryToGroups (gs : List Group) (e : LogEntry) : List Group :=
  if gs.any (fun g => g.date = e.date ∧ g.projectId = e.projectId ∧ g.activity = e.activity) then
    gs.map (fun g =>
      if g.date = e.date ∧ g.projectId = e.projectId ∧ g.activity = e.activity then
        { g with
          entries := g.entries ++ [e],
          totalMinutes := g.totalMinutes + e.billedMinutes,
          firstBegin := if e.beginT < g.firstBegin then e.beginT else g.firstBegin,
          lastEnd := if g.lastEnd < e.endT then e.endT else g.lastEnd }
      else g)
  else
    gs ++ [{ date := e.date, projectId := e.projectId,
             projectName := e.projectName, folder := e.folder,
             activity := e.activity, entries := [e],
             totalMinutes := e.billedMinutes,
             firstBegin := e.beginT, lastEnd := e.endT }]

/-- A consolidated group with its derived adjusted minutes
(nectime.py lines 967-1003): `adjusted = int(total * ratio)` and the Kimai
window is `[first_begin, first_begin + adjusted]`. -/
structure CGroup where
  grp : Group
  adjustedMinutes : Int
  kimaiBegin : Int
  kimaiEnd : Int
  ratio : PyFloat
  deriving Repr, DecidableEq

/-- Python string `<=`: lexicographic comparison by code point, on the
character lists of the two strings. -/
def charsLE : List Char → List Char → Bool
  | [], _ => true
  | _ :: _, [] => false
  | a :: as, b :: bs =>
    if a.val < b.val then true
    else if b.val < a.val then false
    else charsLE as bs

/-- The sort key comparison of nectime.py line 1006: by (date, activity),
as a total boolean `≤` (Python tuple comparison). -/
def groupLE (a b : CGroup) : Bool :=
  a.grp.date < b.grp.date ∨
    (a.grp.date = b.grp.date ∧ charsLE a.grp.activity.data b.grp.activity.data)

/-- Stable insertion into a sorted list: the model of Python's stable
`list.sort` (any stable sort by the same key produces the same list). -/
def insertStable (x : CGroup) : List CGroup → List CGroup
  | [] => [x]
  | y :: ys => if groupLE x y then x :: y :: ys else y :: insertStable x ys

/-- Stable sort by (date, activity) (nectime.py line 1006). -/
def sortGroups : List CGroup → List CGroup
  | [] => []
  | x :: xs => insertStable x (sortGroups xs)

/-- `consolidate_entries` (nectime.py line 922): group by
(date, project, activity), apply each date's adjustment ratio
(`adjustment_ratios.get(date, 1.0)` modelled as a total function on dates),
truncate to an integer, derive the Kimai window, sort by (date, activity). -/
def consolidate_entries (entries : List LogEntry) (ratios : Int → PyFloat) :
    List CGroup :=
  let groups := entries.foldl addEntryToGroups []
  let consolidated := groups.map (fun g =>
    let ratio := ratios g.date
    let adjusted := pyInt (.mulInt g.totalMinutes ratio)
    { grp := g, adjustedMinutes := adjusted, kimaiBegin := g.firstBegin,
      kimaiEnd := g.firstBegin + adjusted * 60, ratio := ratio })
  sortGroups consolidated

/-- The eligibility filter of `cmd_push` (nectime.py lines 1211-1214) and of
`fill_empty_weekdays` (lines 463-466): unpushed, classification `pro`,
truthy project id. -/
def eligibleEntry (e : LogEntry) : Bool :=
  !e.pushedToKimai && e.folderType == "pro" && decide (e.projectId ≠ 0)

/-- The `to_push` list of `cmd_push` for log entries (lines 1202-1214):
optional date filter, then the eligibility filter.  Entries synthesized
from still-open pro sessions (lines 1216-1247) enter the pipeline the same
way and are covered by quantifying over the entry list. -/
def to_push (entries : List LogEntry) (dateFilter : Option Int) : List LogEntry :=
  let selected : List LogEntry :=
    match dateFilter with
    | some d => entries.filter (fun e => e.date = d)
    | none => entries
  selected.filter eligibleEntry

/-- The per-date raw total of `cmd_push` (line 1274). -/
def dayRawTotal (toPush : List LogEntry) (d : Int) : Int :=
  ((toPush.filter (fun e => e.date = d)).map (fun e => e.billedMinutes)).sum

/-- The per-date adjustment ratio of `cmd_push` (lines 1272-1282): weekday
dates get `calculate_adjustment_ratio(total, limit, date, expand=True)`,
weekend dates are forced to 1.0. -/
def pushRatio (log : LocalLog) (toPush : List LogEntry) (limit : Int)
    (d : Int) : PyFloat :=
  if is_weekday d then
    calculate_adjustment_ratio log (dayRawTotal toPush d) limit d true
  else .one

/-- The consolidated groups of `cmd_push` (line 1285). -/
def pushConsolidated (log : LocalLog) (toPush : List LogEntry)
    (limit : Int) : List CGroup :=
  consolidate_entries toPush (pushRatio log toPush limit)

/-- The 30-minute rounding of one group (nectime.py lines 1299-1302):
round half to even to a multiple of 30, then floor up to 30 a positive
value that rounded to 0. -/
def roundTo30 (original : Int) : Int :=
  let rounded := pyRoundDiv original 30 * 30
  if rounded = 0 ∧ 0 < original then 30 else rounded

/-- Python `max(groups, key=...)` value: the maximum of a list
(0 for an empty list; only used on nonempty lists). -/
def maxOf : List Int → Int
  | [] => 0
  | x :: xs => xs.foldl max x

/-- Residual absorption (nectime.py lines 1313-1316): add `diff` to the
first group attaining the maximum (Python `max` returns the first maximal
element), clamped to a 30-minute minimum. -/
def bumpFirst (m diff : Int) : List Int → List Int
  | [] => []
  | r :: rest => if r = m then max 30 (r + diff) :: rest else r :: bumpFirst m diff rest

/-- The rounded minutes of the groups of date `d`, before residual
absorption (nectime.py lines 1289-1303, restricted to one date of
`by_date_consolidated`). -/
def pushDayRounded (log : LocalLog) (toPush : List LogEntry)
    (limit d : Int) : List Int :=
  ((pushConsolidated log toPush limit).filter (fun g => g.grp.date = d)).map
    (fun g => roundTo30 g.adjustedMinutes)

/-- The final per-group minutes of date `d` after the whole rounding pass of
`cmd_push` (nectime.py lines 1296-1321): every group of every date is
rounded to 30 minutes; on weekdays the residual `limit - total` is absorbed
by the first largest group, clamped to 30; line 1319 then writes the
rounded minutes back into `adjusted_minutes` for all dates. -/
def pushDayFinal (log : LocalLog) (toPush : List LogEntry)
    (limit d : Int) : List Int :=
  let rs := pushDayRounded log toPush limit d
  if is_weekday d then
    let diff := limit - rs.sum
    if diff ≠ 0 ∧ rs ≠ [] then bumpFirst (maxOf rs) diff rs else rs
  else rs

/-! ## `fill_empty_weekdays` (nectime.py line 451) -/

/-- The eligible entries the backfill considers (lines 463-466). -/
def fillAllEntries (log : LocalLog) : List LogEntry :=
  log.entries.filter eligibleEntry

/-- First-occurrence deduplication: the keys of the `entries_by_date` dict,
in insertion order (lines 469-474). -/
def dedupKeys (l : List Int) : List Int :=
  l.foldl (fun acc d => if acc.contains d then acc else acc ++ [d]) []

/-- The dates that have at least one eligible entry (the keys of
`entries_by_date`). -/
def fillDatesWithEntries (log : LocalLog) : List Int :=
  dedupKeys ((fillAllEntries log).map (fun e => e.date))

/-- The empty weekdays of the range (line 480). -/
def fillEmptyDays (log : LocalLog) (startD endD : Int) : List Int :=
  (get_weekdays_in_range startD endD).filter
    (fun d => !(fillDatesWithEntries log).contains d)

/-- Ascending insertion into a sorted list of dates. -/
def insertIntAsc (x : Int) : List Int → List Int
  | [] => [x]
  | y :: ys => if x ≤ y then x :: y :: ys else y :: insertIntAsc x ys

/-- `sorted(entries_by_date.keys())` (line 486). -/
def sortInts : List Int → List Int
  | [] => []
  | x :: xs => insertIntAsc x (sortInts xs)

/-- The single source date of the backfill (lines 490-499): walking the
dates with entries from the latest down, the first one `<=` the FIRST empty
day; if none qualifies, the earliest date with entries. -/
def fillSourceDate (log : LocalLog) (startD endD : Int) : Int :=
  let sortedDates := sortInts (fillDatesWithEntries log)
  let firstEmpty := (fillEmptyDays log startD endD).headD 0
  match sortedDates.reverse.find? (fun d => d ≤ firstEmpty) with
  | some d => d
  | none => sortedDates.headD 0

/-- The eligible entries of the source date (line 501). -/
def fillSourceEntries (log : LocalLog) (startD endD : Int) : List LogEntry :=
  (fillAllEntries log).filter (fun e => e.date = fillSourceDate log startD endD)

/-- One synthesized entry (lines 506-531): dated to the empty day, begin at
the source's clock time truncated to the whole minute
(`strptime(...).replace(hour=.., minute=..)` leaves seconds at 0), same
duration, unpushed, tagged with the source date.  The new dict carries no
`description`/`git_commits` keys. -/
def fillCopy (emptyDay srcDate : Int) (src : LogEntry) : LogEntry :=
  let newBegin := emptyDay * 86400 + src.beginT % 86400 / 60 * 60
  { date := emptyDay, folder := src.folder, folderType := src.folderType,
    projectId := src.projectId, projectName := src.projectName,
    activity := src.activity, beginT := newBegin,
    endT := newBegin + (src.endT - src.beginT),
    billedMinutes := src.billedMinutes, realMinutes := src.realMinutes,
    pushedToKimai := false, description := none, gitCommits := [],
    filledFrom := some srcDate }

/-- `LocalLogger.fill_empty_weekdays` (nectime.py line 451): for every empty
weekday of the inclusive range, append a copy of every eligible entry of
the single source day, updating the daily totals; returns the new log and
the created entries. -/
def fill_empty_weekdays (log : LocalLog) (startD endD : Int) :
    LocalLog × List LogEntry :=
  let emptyDays := fillEmptyDays log startD endD
  if emptyDays.isEmpty then (log, [])
  else if (fillDatesWithEntries log).isEmpty then (log, [])
  else
    let srcDate := fillSourceDate log startD endD
    let srcEntries := fillSourceEntries log startD endD
    let created := emptyDays.flatMap (fun d => srcEntries.map (fillCopy d srcDate))
    ({ entries := log.entries ++ created,
       dailyTotals := created.foldl
         (fun t c => bumpTotal t c.date c.billedMinutes c.realMinutes)
         log.dailyTotals },
     created)

/-! ## Concrete instances used by witnesses and counterexamples -/

/-- One of 17 equal-length weekday entries on distinct projects:
2026-??: day 4 is 1970-01-05, a Monday; 28 minutes each, unpushed `pro`. -/
def c1Entry (i : Nat) : LogEntry :=
  { date := 4, folder := "/w", folderType := "pro", projectId := i + 1,
    projectName := some "P", activity := "dev", beginT := 378000,
    endT := 379680, billedMinutes := 28, realMinutes := 28,
    pushedToKimai := false, description := none, gitCommits := [] }

/-- A log of 17 unpushed eligible entries of 28 minutes on the same Monday. -/
def c1Log : LocalLog := ⟨(List.range 17).map c1Entry, []⟩

/-- A single 125-minute unpushed eligible entry on day 2 = 1970-01-03,
a Saturday. -/
def c2Entry : LogEntry :=
  { date := 2, folder := "/w", folderType := "pro", projectId := 1,
    projectName := some "P", activity := "dev", beginT := 205200,
    endT := 212700, billedMinutes := 125, realMinutes := 125,
    pushedToKimai := false, description := none, gitCommits := [] }

/-- The weekend log for claim C2. -/
def c2Log : LocalLog := ⟨[c2Entry], []⟩

/-- An eligible entry on Monday day 4 with activity `"a"`. -/
def c6EntryA : LogEntry :=
  { date := 4, folder := "/w", folderType := "pro", projectId := 1,
    projectName := some "P", activity := "a", beginT := 378000,
    endT := 381600, billedMinutes := 60, realMinutes := 60,
    pushedToKimai := false, description := none, gitCommits := [] }

/-- An eligible entry on Wednesday day 6 with activity `"b"`. -/
def c6EntryB : LogEntry :=
  { date := 6, folder := "/w", folderType := "pro", projectId := 1,
    projectName := some "P", activity := "b", beginT := 550800,
    endT := 558000, billedMinutes := 120, realMinutes := 120,
    pushedToKimai := false, description := none, gitCommits := [] }

/-- A log with eligible entries on Monday (day 4) and Wednesday (day 6)
only; Tuesday, Thursday and Friday of that week are empty. -/
def c6Log : LocalLog := ⟨[c6EntryA, c6EntryB], []⟩

/-- A sample open session in folder `/w`. -/
def sampleSession : Session :=
  { beginT := 0, folder := "/w", folderType := "pro", projectId := 1,
    projectName := some "P", lastActivity := 0, activityLog := [],
    activityBreakdown := [] }

/-- A registry with exactly one session for folder `/w`. -/
def reg1 : Registry := [("a", sampleSession)]

/-- A registry with two open sessions for the same folder `/w`. -/
def reg2 : Registry := [("a", sampleSession), ("b", sampleSession)]

/-! ## Theorems -/

/-- C3: for every log, date, raw minutes, limit and expansion flag, with
`pushed` = already-pushed minutes for the date and
`remaining = max(0, limit - pushed)`, `calculate_adjustment_ratio` returns
`remaining/raw` when `raw + pushed > limit` (shrink), `remaining/raw` when
expansion is enabled, `raw + pushed < limit` and `remaining > 0` (expand),
and `1.0` in every other case, including whenever `raw ≤ 0`. -/
theorem calculate_adjustment_ratio_C3 (log : LocalLog)
    (raw limit date : Int) (expand : Bool) :
    (calculate_adjustment_ratio log raw limit date expand).toRat =
      ratioSpecC3 (get_kimai_pushed_minutes log date) raw limit expand := by
  unfold calculate_adjustment_ratio ratioSpecC3
  by_cases h : raw ≤ 0
  · simp [h, PyFloat.toRat, PyFloat.one]
  · simp only [h, if_false]
    rw [Int.add_comm (get_kimai_pushed_minutes log date) raw]
    split_ifs with h1 h2
    · simp [PyFloat.toRat, PyFloat.ratio]
    · simp [PyFloat.toRat, PyFloat.ratio]
    · simp [PyFloat.toRat, PyFloat.one]

/-- C10 counterexample: the full rounding step of `cmd_push` maps the odd
multiple of 15 `adjusted = 15` to 30 — not to the midway 30-multiple with
an even quotient (which would be 0): the positive-floor rule overrides the
half-to-even tie-break there. -/
theorem roundTo30_C10_counterexample :
    roundTo30 15 = 30 ∧ roundTo30 15 % 60 ≠ 0 := by decide

/-- C10 amended: for every adjusted value that is an odd multiple of 15 and
at least 45 (`30*j + 15` with `j ≥ 1`), the rounding step of `cmd_push`
breaks the tie half-to-even: the result is `30*j` for even `j` and
`30*(j+1)` for odd `j` — always the neighbouring 30-multiple with an even
quotient (a multiple of 60), so midway values do not always round upward.
The sole exception, forced by the positive-floor rule, is 15 itself. -/
theorem roundTo30_half_even_C10 (j : Int) (hj : 1 ≤ j) :
    roundTo30 (30 * j + 15) =
      (if j % 2 = 0 then 30 * j else 30 * (j + 1)) ∧
    roundTo30 (30 * j + 15) % 60 = 0 := by
  have hf : (30 * j + 15) / 30 = j := by omega
  unfold roundTo30 pyRoundDiv
  simp only [hf]
  have h30 : ¬ (2 * (30 * j + 15 - j * 30) < 30) := by omega
  have h30' : ¬ (30 < 2 * (30 * j + 15 - j * 30)) := by omega
  simp only [h30, h30', if_false]
  refine ⟨?_, ?_⟩ <;> (split_ifs <;> omega)

/-- C10 witness: at `j = 2` (adjusted = 75) the theorem applies and yields
60, an even multiple of 30 — and in particular 75 rounds downward. -/
theorem roundTo30_half_even_C10_witness :
    roundTo30 (30 * 2 + 15) =
      (if (2 : Int) % 2 = 0 then 30 * 2 else 30 * (2 + 1)) ∧
    roundTo30 (30 * 2 + 15) % 60 = 0 :=
  roundTo30_half_even_C10 2 (by decide)

/-- Replacing the binding of a present key: the key then looks up to the
new value. -/
theorem find?_map_setter (sid : String) (s : Session) :
    ∀ (l : Registry), (l.find? (fun p => p.1 = sid)).isSome →
      (l.map (fun p => if p.1 = sid then (sid, s) else p)).find?
        (fun p => p.1 = sid) = some (sid, s) := by
  intro l
  induction l with
  | nil => simp
  | cons hd tl ih =>
    intro h
    by_cases hh : hd.1 = sid
    · simp [List.find?_cons, hh]
    · have h' : (tl.find? (fun p => p.1 = sid)).isSome := by
        simpa [List.find?_cons, hh] using h
      simpa [List.find?_cons, hh] using ih h'

/-- Appending a fresh binding: the key then looks up to the new value. -/
theorem find?_key_append (sid : String) (s : Session) :
    ∀ (l : Registry), l.find? (fun p => p.1 = sid) = none →
      (l ++ [(sid, s)]).find? (fun p => p.1 = sid) = some (sid, s) := by
  intro l
  induction l with
  | nil => simp
  | cons hd tl ih =>
    intro h
    by_cases hh : hd.1 = sid
    · simp [List.find?_cons, hh] at h
    · have h' : tl.find? (fun p => p.1 = sid) = none := by
        simpa [List.find?_cons, hh] using h
      simpa [List.find?_cons, hh] using ih h'

/-- After a dict assignment `sessions[sid] = s`, `sid` looks up to `s`. -/
theorem lookupSid_setKey (l : Registry) (sid : String) (s : Session) :
    lookupSid (setKey l sid s) sid = some s := by
  unfold setKey
  by_cases h : (l.find? (fun p => p.1 = sid)).isSome
  · simp [h, lookupSid, find?_map_setter sid s l h]
  · have h' : l.find? (fun p => p.1 = sid) = none := by
      cases hf : l.find? (fun p => p.1 = sid)
      · rfl
      · rw [hf] at h
        simp at h
    simp [h, lookupSid, find?_key_append sid s l h']

/-- After removing the key `sid`, it looks up to nothing. -/
theorem lookupSid_removeKey (l : Registry) (sid : String) :
    lookupSid (l.filter (fun p => ¬ p.1 = sid)) sid = none := by
  have h : (l.filter (fun p => ¬ p.1 = sid)).find? (fun p => p.1 = sid) = none := by
    rw [List.find?_eq_none]
    intro x hx
    simp only [List.mem_filter] at hx
    simpa using hx.2
  simp [lookupSid, h]

/-- C7: without an explicit session identifier, resolution is tri-state:
with exactly one open session for the folder, that session is resolved and
subsequent mutations apply to it (`stop` removes exactly that binding and
bills that session); with zero or several, nothing is resolved and
operations behave as if no session were active (`update_activity` is a
no-op and `stop` fails). -/
theorem get_session_C7 (sessions : Registry) (folder : String) :
    (∀ p, sessions.filter (fun q => q.2.folder = folder) = [p] →
      get_session sessions folder none = some p ∧
      ∀ now, SessionManager.stop sessions folder none now =
        .ok (sessions.filter (fun q => ¬ q.1 = p.1),
          { session := p.2, endT := now,
            billedMinutes := (now - p.2.beginT).tdiv 60,
            realMinutes := (p.2.lastActivity - p.2.beginT).tdiv 60 })) ∧
    ((sessions.filter (fun q => q.2.folder = folder)).length ≠ 1 →
      get_session sessions folder none = none ∧
      (∀ now files est, update_activity sessions folder none now files est = sessions) ∧
      (∀ now, ∃ msg, SessionManager.stop sessions folder none now = .error msg)) := by
  constructor
  · rintro ⟨sid, s⟩ hp
    have hg : get_session sessions folder none = some (sid, s) := by
      unfold get_session
      rw [hp]
    refine ⟨hg, fun now => ?_⟩
    unfold SessionManager.stop
    rw [hg]
    simp [set_session]
  · intro hlen
    have hg : get_session sessions folder none = none := by
      unfold get_session
      rcases hfl : sessions.filter (fun q => q.2.folder = folder) with _ | ⟨a, _ | ⟨b, t⟩⟩
      · rw [hfl]
      · exact absurd (by rw [hfl]; rfl :
          (sessions.filter (fun q => q.2.folder = folder)).length = 1) hlen
      · rw [hfl]
    refine ⟨hg, fun now files est => ?_, fun now => ?_⟩
    · unfold update_activity
      rw [hg]
    · unfold SessionManager.stop
      rw [hg]
      exact ⟨_, rfl⟩

/-- C7 witness: with one session for folder `/w` it is resolved; with two
sessions for the same folder nothing is resolved and an activity update is
a no-op. -/
theorem get_session_C7_witness :
    get_session reg1 "/w" none = some ("a", sampleSession) ∧
    get_session reg2 "/w" none = none ∧
    update_activity reg2 "/w" none 5 [] none = reg2 :=
  ⟨((get_session_C7 reg1 "/w").1 ("a", sampleSession) (by decide)).1,
   ((get_session_C7 reg2 "/w").2 (by decide)).1,
   ((get_session_C7 reg2 "/w").2 (by decide)).2.1 5 [] none⟩

/-- C8: `update_activity` on an identifier with no session is a total no-op
(it never fails and leaves the registry unchanged — in particular it
creates nothing); on an identifier with a session it always refreshes that
session's `last_activity` to now. -/
theorem update_activity_C8 (sessions : Registry) (sid folder : String)
    (now : Int) (files : List String) (est : Option String) :
    (lookupSid sessions sid = none →
      update_activity sessions folder (some sid) now files est = sessions) ∧
    (∀ s, lookupSid sessions sid = some s →
      ∃ s', lookupSid (update_activity sessions folder (some sid) now files est) sid
          = some s' ∧ s'.lastActivity = now) := by
  constructor
  · intro h
    unfold update_activity
    have hg : get_session sessions folder (some sid) = none := by
      show (lookupSid sessions sid).map (fun s => (sid, s)) = none
      rw [h]
      rfl
    rw [hg]
  · intro s h
    unfold update_activity
    have hg : get_session sessions folder (some sid) = some (sid, s) := by
      show (lookupSid sessions sid).map (fun s => (sid, s)) = some (sid, s)
      rw [h]
      rfl
    rw [hg]
    by_cases hst : strTruthy est = true
    · simp only [hst, if_true, set_session]
      exact ⟨_, lookupSid_setKey _ _ _, rfl⟩
    · simp only [hst, if_false, set_session]
      exact ⟨_, lookupSid_setKey _ _ _, rfl⟩

/-- C8 witness: on the empty registry an update for id `a` is a no-op; on a
registry holding `a`, the update refreshes its `last_activity` to 7. -/
theorem update_activity_C8_witness :
    update_activity ([] : Registry) "/w" (some "a") 5 [] none = [] ∧
    ∃ s', lookupSid (update_activity reg1 "/w" (some "a") 7 [] (some "dev")) "a"
        = some s' ∧ s'.lastActivity = 7 :=
  ⟨(update_activity_C8 [] "a" "/w" 5 [] none).1 rfl,
   (update_activity_C8 reg1 "a" "/w" 7 [] (some "dev")).2 sampleSession (by decide)⟩

/-- A non-truthy optional string `or`-defaults to the alternative. -/
theorem pyOrStr_not_truthy (a : Option String) (b : String)
    (h : strTruthy a = false) : pyOrStr a b = b := by
  cases a with
  | none => rfl
  | some s =>
    simp only [strTruthy, Bool.not_eq_false'] at h
    simp [pyOrStr, h]

/-- Folding `add_entry` over a list appends the corresponding entries. -/
theorem foldl_add_entry_entries (cfg : Option Config) :
    ∀ (l : List (String × Session)) (log : LocalLog),
      (l.foldl (fun lg p => (add_entry lg (reclaim_data p.2 cfg) false).1) log).entries =
        log.entries ++ l.map (fun p => entry_of (reclaim_data p.2 cfg) false) := by
  intro l
  induction l with
  | nil => simp
  | cons hd tl ih =>
    intro log
    simp only [List.foldl_cons, List.map_cons]
    rw [ih]
    simp [add_entry]

/-- Structure of one orphan-reclamation pass: the registry keeps exactly
the non-orphans in order, the log receives one entry per orphan in
iteration order, and the closed report lists the orphans. -/
theorem cleanup_old_sessions_eq (cfg : Option Config) (now maxHours : Int) :
    ∀ (sessions : Registry) (log : LocalLog),
      cleanup_old_sessions sessions log cfg now maxHours =
        (sessions.filter (fun p => !is_orphan p.2 now maxHours),
         (sessions.filter (fun p => is_orphan p.2 now maxHours)).foldl
           (fun lg p => (add_entry lg (reclaim_data p.2 cfg) false).1) log,
         (sessions.filter (fun p => is_orphan p.2 now maxHours)).map
           (fun p => (p.1, reclaim_data p.2 cfg))) := by
  intro sessions
  induction sessions with
  | nil => intro log; rfl
  | cons hd tl ih =>
    intro log
    obtain ⟨sid, s⟩ := hd
    cases ho : is_orphan s now maxHours
    · simp [cleanup_old_sessions, ho, ih]
    · simp [cleanup_old_sessions, ho, ih]

/-- C4: orphan reclamation removes exactly the sessions whose start date
differs from today or whose age exceeds `maxHours` (the rest stay,
untouched and in order), and appends for each orphan one log entry with
`end = last_activity` (not now), `billed = real = last_activity - begin` in
truncated minutes, the configured default activity substituted when no
estimate was ever recorded, and the entry left unpushed. -/
theorem cleanup_old_sessions_C4 (sessions : Registry) (log : LocalLog)
    (config : Option Config) (now maxHours : Int) :
    (cleanup_old_sessions sessions log config now maxHours).1 =
      sessions.filter (fun p =>
        decide (dateOf p.2.beginT = dateOf now) &&
        decide (now - p.2.beginT ≤ maxHours * 3600)) ∧
    (cleanup_old_sessions sessions log config now maxHours).2.1.entries =
      log.entries ++
        (sessions.filter (fun p =>
          decide (¬ dateOf p.2.beginT = dateOf now) ||
          decide (maxHours * 3600 < now - p.2.beginT))).map
          (fun p =>
            { date := dateOf p.2.beginT
              folder := p.2.folder
              folderType := p.2.folderType
              projectId := p.2.projectId
              projectName := p.2.projectName
              activity :=
                if strTruthy p.2.currentActivityEstimate then
                  pyOrStr p.2.currentActivityEstimate "dev_applicatif"
                else
                  pyOrStr (config.map (fun c => c.defaultActivity.getD "dev_applicatif"))
                    "dev_applicatif"
              beginT := p.2.beginT
              endT := p.2.lastActivity
              billedMinutes := (p.2.lastActivity - p.2.beginT).tdiv 60
              realMinutes := (p.2.lastActivity - p.2.beginT).tdiv 60
              pushedToKimai := false
              description := p.2.description
              gitCommits := p.2.gitCommits
              filledFrom := none }) := by
  have hstay : (fun p : String × Session => !is_orphan p.2 now maxHours) =
      (fun p : String × Session =>
        decide (dateOf p.2.beginT = dateOf now) &&
        decide (now - p.2.beginT ≤ maxHours * 3600)) := by
    funext p
    by_cases h1 : dateOf p.2.beginT = dateOf now
    · by_cases h2 : now - p.2.beginT ≤ maxHours * 3600
      · simp [is_orphan, h1, h2, not_lt.mpr h2]
      · simp [is_orphan, h1, h2, not_le.mp h2]
    · by_cases h2 : now - p.2.beginT ≤ maxHours * 3600
      · simp [is_orphan, h1, h2, not_lt.mpr h2]
      · simp [is_orphan, h1, h2, not_le.mp h2]
  have horph : (fun p : String × Session => is_orphan p.2 now maxHours) =
      (fun p : String × Session =>
        decide (¬ dateOf p.2.beginT = dateOf now) ||
        decide (maxHours * 3600 < now - p.2.beginT)) := by
    funext p
    by_cases h1 : dateOf p.2.beginT = dateOf now <;> simp [is_orphan, h1]
  have hmap : (fun p : String × Session => entry_of (reclaim_data p.2 config) false) =
      (fun p : String × Session =>
        ({ date := dateOf p.2.beginT
           folder := p.2.folder
           folderType := p.2.folderType
           projectId := p.2.projectId
           projectName := p.2.projectName
           activity :=
             if strTruthy p.2.currentActivityEstimate then
               pyOrStr p.2.currentActivityEstimate "dev_applicatif"
             else
               pyOrStr (config.map (fun c => c.defaultActivity.getD "dev_applicatif"))
                 "dev_applicatif"
           beginT := p.2.beginT
           endT := p.2.lastActivity
           billedMinutes := (p.2.lastActivity - p.2.beginT).tdiv 60
           realMinutes := (p.2.lastActivity - p.2.beginT).tdiv 60
           pushedToKimai := false
           description := p.2.description
           gitCommits := p.2.gitCommits
           filledFrom := none } : LogEntry)) := by
    funext p
    unfold entry_of reclaim_data
    cases hc : strTruthy p.2.currentActivityEstimate
    · cases config with
      | none =>
        cases hcur : p.2.currentActivityEstimate with
        | none => simp [hcur, pyOrStr]
        | some a =>
          rw [hcur] at hc
          have ha : a = "" := by simpa [strTruthy] using hc
          simp [hcur, pyOrStr, ha]
      | some c => simp [hc]
    · simp [hc]
  rw [cleanup_old_sessions_eq]
  constructor
  · rw [hstay]
  · rw [foldl_add_entry_entries, horph, hmap]

/-- C9: orphan reclamation is idempotent — a second pass at the same
instant, with no session started in between, closes nothing and leaves both
the registry and the log exactly as the first pass left them. -/
theorem cleanup_idempotent_C9 (sessions : Registry) (log : LocalLog)
    (config : Option Config) (now maxHours : Int) :
    (cleanup_old_sessions (cleanup_old_sessions sessions log config now maxHours).1
        (cleanup_old_sessions sessions log config now maxHours).2.1 config now maxHours).2.2
      = [] ∧
    (cleanup_old_sessions (cleanup_old_sessions sessions log config now maxHours).1
        (cleanup_old_sessions sessions log config now maxHours).2.1 config now maxHours).1
      = (cleanup_old_sessions sessions log config now maxHours).1 ∧
    (cleanup_old_sessions (cleanup_old_sessions sessions log config now maxHours).1
        (cleanup_old_sessions sessions log config now maxHours).2.1 config now maxHours).2.1
      = (cleanup_old_sessions sessions log config now maxHours).2.1 := by
  have hnone : (sessions.filter (fun p => !is_orphan p.2 now maxHours)).filter
      (fun p => is_orphan p.2 now maxHours) = [] := by
    rw [List.filter_filter]
    have : (fun p : String × Session =>
        is_orphan p.2 now maxHours && !is_orphan p.2 now maxHours) =
        (fun _ : String × Session => false) := by
      funext p
      cases is_orphan p.2 now maxHours <;> rfl
    rw [this]
    exact List.filter_false _
  have hsame : (sessions.filter (fun p => !is_orphan p.2 now maxHours)).filter
      (fun p => !is_orphan p.2 now maxHours) =
      sessions.filter (fun p => !is_orphan p.2 now maxHours) := by
    rw [List.filter_filter]
    have : (fun p : String × Session =>
        !is_orphan p.2 now maxHours && !is_orphan p.2 now maxHours) =
        (fun p : String × Session => !is_orphan p.2 now maxHours) := by
      funext p
      cases is_orphan p.2 now maxHours <;> rfl
    rw [this]
  simp only [cleanup_old_sessions_eq, hnone, hsame]
  refine ⟨?_, ?_, ?_⟩ <;> trivial

/-- One `update_activity` call on a present identifier keeps it present and
does not move its begin timestamp. -/
theorem update_activity_preserves (st : Registry) (sid folder : String)
    (t : Int) (files : List String) (est : Option String) (c : Session)
    (h : lookupSid st sid = some c) :
    ∃ c', lookupSid (update_activity st folder (some sid) t files est) sid = some c' ∧
      c'.beginT = c.beginT := by
  unfold update_activity
  have hg : get_session st folder (some sid) = some (sid, c) := by
    show (lookupSid st sid).map (fun s => (sid, s)) = some (sid, c)
    rw [h]
    rfl
  rw [hg]
  by_cases hst : strTruthy est = true
  · simp only [hst, if_true, set_session]
    exact ⟨_, lookupSid_setKey _ _ _, rfl⟩
  · simp only [hst, if_false, set_session]
    exact ⟨_, lookupSid_setKey _ _ _, rfl⟩

/-- A whole sequence of `update_activity` calls keeps the session present
with its begin timestamp. -/
theorem foldl_update_preserves (sid folder : String) :
    ∀ (ops : List (Int × List String × Option String)) (st : Registry) (c : Session),
      lookupSid st sid = some c →
      ∃ c', lookupSid (ops.foldl (fun acc op =>
          update_activity acc folder (some sid) op.1 op.2.1 op.2.2) st) sid = some c' ∧
        c'.beginT = c.beginT := by
  intro ops
  induction ops with
  | nil =>
    intro st c h
    exact ⟨c, h, rfl⟩
  | cons op rest ih =>
    intro st c h
    obtain ⟨c1, h1, hb1⟩ := update_activity_preserves st sid folder op.1 op.2.1 op.2.2 c h
    obtain ⟨c', h', hb'⟩ := ih _ c1 h1
    exact ⟨c', by simpa using h', by rw [hb', hb1]⟩

/-- C5: after a `start` on a fresh identifier followed (possibly after
activity updates) by a `stop`, the stop record bills `end - start` minutes
with `end = now`, reports `last_activity - start` real minutes, the
registry no longer holds the identifier, and handing the record to
`add_entry` produces exactly one log entry. -/
theorem start_stop_C5 (sessions : Registry) (log : LocalLog)
    (sid folder : String) (t0 : Int) (folderType : String) (pid : Nat)
    (pname : Option String) (ops : List (Int × List String × Option String))
    (t1 : Int) (pushed : Bool) (h0 : lookupSid sessions sid = none) :
    ∃ s1 sess,
      SessionManager.start sessions folder (some sid) t0 folderType pid pname
        = .ok (s1, sess) ∧
      ∃ cur, lookupSid (ops.foldl (fun acc op =>
          update_activity acc folder (some sid) op.1 op.2.1 op.2.2) s1) sid
          = some cur ∧
        cur.beginT = t0 ∧
        ∃ s3 rec,
          SessionManager.stop (ops.foldl (fun acc op =>
              update_activity acc folder (some sid) op.1 op.2.1 op.2.2) s1)
            folder (some sid) t1 = .ok (s3, rec) ∧
          rec.endT = t1 ∧
          rec.billedMinutes = (t1 - t0).tdiv 60 ∧
          rec.realMinutes = (cur.lastActivity - t0).tdiv 60 ∧
          lookupSid s3 sid = none ∧
          (add_entry log rec pushed).1.entries = log.entries ++ [entry_of rec pushed] := by
  have hg0 : get_session sessions folder (some sid) = none := by
    show (lookupSid sessions sid).map (fun s => (sid, s)) = none
    rw [h0]
    rfl
  have hstart : SessionManager.start sessions folder (some sid) t0 folderType pid pname
      = .ok (setKey sessions sid
          { beginT := t0, folder := folder, folderType := folderType,
            projectId := pid, projectName := pname, lastActivity := t0,
            activityLog := [], activityBreakdown := [] },
        { beginT := t0, folder := folder, folderType := folderType,
          projectId := pid, projectName := pname, lastActivity := t0,
          activityLog := [], activityBreakdown := [] }) := by
    unfold SessionManager.start
    rw [hg0]
    rfl
  refine ⟨_, _, hstart, ?_⟩
  have h1 := lookupSid_setKey sessions sid
    { beginT := t0, folder := folder, folderType := folderType,
      projectId := pid, projectName := pname, lastActivity := t0,
      activityLog := [], activityBreakdown := [] }
  obtain ⟨cur, hcur, hbeg⟩ := foldl_update_preserves sid folder ops _ _ h1
  refine ⟨cur, hcur, hbeg, ?_⟩
  have hgs : get_session (ops.foldl (fun acc op =>
      update_activity acc folder (some sid) op.1 op.2.1 op.2.2)
        (setKey sessions sid
          { beginT := t0, folder := folder, folderType := folderType,
            projectId := pid, projectName := pname, lastActivity := t0,
            activityLog := [], activityBreakdown := [] })) folder (some sid)
      = some (sid, cur) := by
    show (lookupSid _ sid).map (fun s => (sid, s)) = some (sid, cur)
    rw [hcur]
    rfl
  refine ⟨set_session (ops.foldl (fun acc op =>
      update_activity acc folder (some sid) op.1 op.2.1 op.2.2)
        (setKey sessions sid
          { beginT := t0, folder := folder, folderType := folderType,
            projectId := pid, projectName := pname, lastActivity := t0,
            activityLog := [], activityBreakdown := [] })) (some sid) none,
    { session := cur, endT := t1,
      billedMinutes := (t1 - cur.beginT).tdiv 60,
      realMinutes := (cur.lastActivity - cur.beginT).tdiv 60 }, ?_, rfl,
    by rw [hbeg], by rw [hbeg], ?_, rfl⟩
  · unfold SessionManager.stop
    rw [hgs]
  · exact lookupSid_removeKey _ sid

/-- C5 witness: on the empty registry, start at t=0, one activity update at
t=60, stop at t=120: two billed minutes, one real minute's worth of
last-activity, identifier gone, one entry appended. -/
theorem start_stop_C5_witness :
    ∃ s1 sess,
      SessionManager.start ([] : Registry) "/w" (some "a") 0 "pro" 1 none
        = .ok (s1, sess) ∧
      ∃ cur, lookupSid (([(60, [], some "dev")] :
          List (Int × List String × Option String)).foldl (fun acc op =>
          update_activity acc "/w" (some "a") op.1 op.2.1 op.2.2) s1) "a"
          = some cur ∧
        cur.beginT = 0 ∧
        ∃ s3 rec,
          SessionManager.stop (([(60, [], some "dev")] :
              List (Int × List String × Option String)).foldl (fun acc op =>
              update_activity acc "/w" (some "a") op.1 op.2.1 op.2.2) s1)
            "/w" (some "a") 120 = .ok (s3, rec) ∧
          rec.endT = 120 ∧
          rec.billedMinutes = ((120 : Int) - 0).tdiv 60 ∧
          rec.realMinutes = (cur.lastActivity - 0).tdiv 60 ∧
          lookupSid s3 "a" = none ∧
          (add_entry ⟨[], []⟩ rec false).1.entries = [] ++ [entry_of rec false] :=
  start_stop_C5 [] ⟨[], []⟩ "a" "/w" 0 "pro" 1 none [(60, [], some "dev")] 120 false rfl

/-- Membership through stable insertion. -/
theorem mem_insertStable (x : CGroup) :
    ∀ (l : List CGroup) (y : CGroup), y ∈ insertStable x l ↔ y = x ∨ y ∈ l := by
  intro l
  induction l with
  | nil => simp [insertStable]
  | cons hd tl ih =>
    intro y
    unfold insertStable
    by_cases h : groupLE x hd = true
    · rw [if_pos h]
      simp [List.mem_cons]
    · rw [if_neg h]
      simp only [List.mem_cons, ih]
      tauto

/-- Membership through the stable sort. -/
theorem mem_sortGroups : ∀ (l : List CGroup) (y : CGroup),
    y ∈ sortGroups l ↔ y ∈ l := by
  intro l
  induction l with
  | nil => simp [sortGroups]
  | cons hd tl ih =>
    intro y
    simp [sortGroups, mem_insertStable, ih]

/-- Every consolidated group comes from the grouping fold, carries its
date's ratio, and derives its adjusted minutes from it. -/
theorem consolidate_entries_mem (entries : List LogEntry)
    (ratios : Int → PyFloat) :
    ∀ g ∈ consolidate_entries entries ratios,
      g.grp ∈ entries.foldl addEntryToGroups [] ∧
      g.ratio = ratios g.grp.date ∧
      g.adjustedMinutes = pyInt (.mulInt g.grp.totalMinutes (ratios g.grp.date)) := by
  intro g hg
  unfold consolidate_entries at hg
  rw [mem_sortGroups] at hg
  obtain ⟨g0, hg0, rfl⟩ := List.mem_map.mp hg
  exact ⟨hg0, rfl, rfl⟩

/-- With nonnegative billed minutes, every group total of the grouping fold
is nonnegative. -/
theorem groups_total_nonneg (entries : List LogEntry)
    (hb : ∀ e ∈ entries, 0 ≤ e.billedMinutes) :
    ∀ g ∈ entries.foldl addEntryToGroups [], 0 ≤ g.totalMinutes := by
  have key : ∀ (l : List LogEntry), (∀ e ∈ l, 0 ≤ e.billedMinutes) →
      ∀ (acc : List Group), (∀ g ∈ acc, 0 ≤ g.totalMinutes) →
      ∀ g ∈ l.foldl addEntryToGroups acc, 0 ≤ g.totalMinutes := by
    intro l
    induction l with
    | nil =>
      intro _ acc hacc g hgg
      exact hacc g hgg
    | cons e rest ih =>
      intro hl acc hacc
      apply ih (fun x hx => hl x (List.mem_cons_of_mem _ hx))
      intro g hgg
      unfold addEntryToGroups at hgg
      by_cases hany : acc.any (fun g => g.date = e.date ∧ g.projectId = e.projectId ∧
          g.activity = e.activity) = true
      · simp only [hany, if_true] at hgg
        obtain ⟨g0, hg0, rfl⟩ := List.mem_map.mp hgg
        have he : 0 ≤ e.billedMinutes := hl e (List.mem_cons_self e rest)
        have h0 := hacc g0 hg0
        by_cases hk : g0.date = e.date ∧ g0.projectId = e.projectId ∧
            g0.activity = e.activity
        · simp only [hk, if_true]
          simpa using by omega
        · simpa [hk] using h0
      · simp only [hany, if_false] at hgg
        rcases List.mem_append.mp hgg with h | h
        · exact hacc g h
        · have he : 0 ≤ e.billedMinutes := hl e (List.mem_cons_self e rest)
          simp only [List.mem_singleton] at h
          subst h
          simpa using he
  exact key entries hb [] (by simp)

/-- The per-day push ratio always has a nonnegative numerator and a
positive denominator. -/
theorem pushRatio_num_den (log : LocalLog) (toPush : List LogEntry)
    (limit d : Int) :
    0 ≤ (pushRatio log toPush limit d).num ∧
    0 < (pushRatio log toPush limit d).den := by
  unfold pushRatio calculate_adjustment_ratio
  dsimp only
  split_ifs <;> simp [PyFloat.one, PyFloat.ratio] <;> omega

/-- The rounding step maps a nonnegative value to 0 or to at least 30. -/
theorem roundTo30_cases (a : Int) (ha : 0 ≤ a) :
    0 ≤ roundTo30 a ∧ (roundTo30 a = 0 ∨ 30 ≤ roundTo30 a) := by
  unfold roundTo30 pyRoundDiv
  dsimp only
  split_ifs <;> omega

/-- Elementwise: every rounded day-group value is nonnegative, and is 0 or
at least 30, provided the pushed entries have nonnegative billed minutes. -/
theorem pushDayRounded_elem (log : LocalLog) (toPush : List LogEntry)
    (limit d : Int) (hb : ∀ e ∈ toPush, 0 ≤ e.billedMinutes) :
    ∀ r ∈ pushDayRounded log toPush limit d, 0 ≤ r ∧ (r = 0 ∨ 30 ≤ r) := by
  intro r hr
  unfold pushDayRounded at hr
  obtain ⟨g, hgf, rfl⟩ := List.mem_map.mp hr
  have hg : g ∈ pushConsolidated log toPush limit := (List.mem_filter.mp hgf).1
  obtain ⟨hgrp, hrat, hadj⟩ := consolidate_entries_mem _ _ g hg
  have htot : 0 ≤ g.grp.totalMinutes := groups_total_nonneg toPush hb g.grp hgrp
  have hratio := pushRatio_num_den log toPush limit g.grp.date
  have hadj0 : 0 ≤ g.adjustedMinutes := by
    rw [hadj]
    exact Int.tdiv_nonneg (mul_nonneg htot hratio.1) (le_of_lt hratio.2)
  exact ⟨(roundTo30_cases _ hadj0).1, (roundTo30_cases _ hadj0).2⟩

/-- `maxOf` of a nonempty list is one of its elements. -/
theorem maxOf_mem : ∀ (l : List Int), l ≠ [] → maxOf l ∈ l := by
  have key : ∀ (xs : List Int) (x : Int), xs.foldl max x = x ∨ xs.foldl max x ∈ xs := by
    intro xs
    induction xs with
    | nil => intro x; left; rfl
    | cons y ys ih =>
      intro x
      rcases ih (max x y) with h | h
      · rcases max_choice x y with hc | hc
        · left
          simpa [hc] using h
        · right
          simp only [List.mem_cons]
          left
          rw [List.foldl_cons, h, hc]
      · right
        simp only [List.foldl_cons] at h ⊢
        exact List.mem_cons_of_mem _ h
  intro l hl
  cases l with
  | nil => exact absurd rfl hl
  | cons x xs =>
    rcases key xs x with h | h
    · simpa [maxOf] using Or.inl h
    · simpa [maxOf] using Or.inr h

/-- Every element is at most `maxOf`. -/
theorem le_maxOf : ∀ (l : List Int) (x : Int), x ∈ l → x ≤ maxOf l := by
  have key : ∀ (xs : List Int) (x : Int),
      x ≤ xs.foldl max x ∧ ∀ y ∈ xs, y ≤ xs.foldl max x := by
    intro xs
    induction xs with
    | nil => intro x; exact ⟨le_refl x, by simp⟩
    | cons z zs ih =>
      intro x
      constructor
      · exact le_trans (le_max_left x z) (ih (max x z)).1
      · intro y hy
        rcases List.mem_cons.mp hy with h | h
        · subst h
          exact le_trans (le_max_right x y) (ih (max x y)).1
        · simpa using (ih (max x z)).2 y h
  intro l x hx
  cases l with
  | nil => simp at hx
  | cons z zs =>
    rcases List.mem_cons.mp hx with h | h
    · subst h
      simpa [maxOf] using (key zs x).1
    · simpa [maxOf] using (key zs z).2 x h

/-- Bumping the first occurrence of the maximum adjusts the sum by
exactly the clamped residual. -/
theorem bumpFirst_sum (m diff : Int) :
    ∀ (l : List Int), m ∈ l →
      (bumpFirst m diff l).sum = l.sum - m + max 30 (m + diff) := by
  intro l
  induction l with
  | nil => simp
  | cons hd tl ih =>
    intro hm
    unfold bumpFirst
    by_cases h : hd = m
    · subst h
      simp only [if_true, List.sum_cons]
      omega
    · have hm' : m ∈ tl := by
        rcases List.mem_cons.mp hm with h1 | h1
        · exact absurd h1.symm h
        · exact h1
      simp only [h, if_false, List.sum_cons, ih hm']
      omega

/-- C2 counterexample: on Saturday day 2 a 125-minute group is rounded to
120 by the push pass — weekend groups are not exported with their raw
minutes, only their ratio is forced to 1. -/
theorem push_weekend_C2_counterexample :
    is_weekday 2 = false ∧
    (pushConsolidated c2Log (to_push c2Log.entries none) 480).map
      (fun g => g.grp.totalMinutes) = [125] ∧
    pushDayFinal c2Log (to_push c2Log.entries none) 480 2 = [120] ∧
    (120 : Int) ≠ 125 := by decide

/-- C2 amended: on a Saturday/Sunday date the adjustment ratio is forced to
1.0, so before the rounding pass a group's adjusted minutes equal its raw
summed minutes; the push pass still rounds every weekend group to the
nearest 30-minute increment (with the positive floor to 30) — only the
residual absorption is skipped on weekends. -/
theorem push_weekend_C2 (log : LocalLog) (toPush : List LogEntry)
    (limit d : Int) (hwk : is_weekday d = false) :
    (∀ g ∈ pushConsolidated log toPush limit, g.grp.date = d →
      g.ratio = PyFloat.one ∧ g.adjustedMinutes = g.grp.totalMinutes) ∧
    pushDayFinal log toPush limit d =
      ((pushConsolidated log toPush limit).filter (fun g => g.grp.date = d)).map
        (fun g => roundTo30 g.adjustedMinutes) := by
  constructor
  · intro g hg hd
    obtain ⟨_, hrat, hadj⟩ := consolidate_entries_mem _ _ g hg
    have hone : pushRatio log toPush limit g.grp.date = PyFloat.one := by
      rw [hd]
      simp [pushRatio, hwk]
    refine ⟨by rw [hrat, hone], ?_⟩
    rw [hadj, hone]
    show (g.grp.totalMinutes * (1 : Int)).tdiv 1 = g.grp.totalMinutes
    rw [mul_one, Int.tdiv_one]
  · unfold pushDayFinal
    simp [hwk, pushDayRounded]

/-- C2 witness: the weekend theorem applied to the Saturday log `c2Log`. -/
theorem push_weekend_C2_witness :
    (∀ g ∈ pushConsolidated c2Log (to_push c2Log.entries none) 480,
      g.grp.date = 2 →
      g.ratio = PyFloat.one ∧ g.adjustedMinutes = g.grp.totalMinutes) ∧
    pushDayFinal c2Log (to_push c2Log.entries none) 480 2 =
      ((pushConsolidated c2Log (to_push c2Log.entries none) 480).filter
        (fun g => g.grp.date = 2)).map (fun g => roundTo30 g.adjustedMinutes) :=
  push_weekend_C2 c2Log (to_push c2Log.entries none) 480 2 (by decide)

/-- C1 counterexample: 17 weekday groups of 28 minutes (raw total 476,
limit 480) all round up to 30; the day's rounded total is 510, the residual
is −30, and the clamp `max(30, ...)` keeps the largest group at 30 — the
exported day total is 510, not the 480 the claim asserts. -/
theorem push_weekday_sum_C1_counterexample :
    is_weekday 4 = true ∧
    pushDayRounded c1Log (to_push c1Log.entries none) 480 4 ≠ [] ∧
    (pushDayFinal c1Log (to_push c1Log.entries none) 480 4).sum = 510 ∧
    (510 : Int) ≠ 480 := by decide

/-- C1 amended: on a weekday with at least one unpushed eligible group and
a limit of at least 30, the rounding pass leaves the day total at
`max limit (S + 30)` where `S` is the rounded total of the groups other
than the largest one: the total equals the configured limit exactly
whenever `S ≤ limit − 30`, and otherwise the 30-minute clamp on the largest
group leaves the total at `S + 30`, above the limit. -/
theorem push_weekday_sum_C1 (log : LocalLog) (toPush : List LogEntry)
    (limit d : Int) (hwk : is_weekday d = true) (hlim : 30 ≤ limit)
    (hb : ∀ e ∈ toPush, 0 ≤ e.billedMinutes)
    (hne : pushDayRounded log toPush limit d ≠ []) :
    (pushDayFinal log toPush limit d).sum =
      max limit ((pushDayRounded log toPush limit d).sum
        - maxOf (pushDayRounded log toPush limit d) + 30) := by
  have helem := pushDayRounded_elem log toPush limit d hb
  have hm_mem : maxOf (pushDayRounded log toPush limit d) ∈
      pushDayRounded log toPush limit d := maxOf_mem _ hne
  have hm_cases := helem _ hm_mem
  unfold pushDayFinal
  dsimp only
  rw [if_pos hwk]
  by_cases hd : limit - (pushDayRounded log toPush limit d).sum ≠ 0 ∧
      pushDayRounded log toPush limit d ≠ []
  · rw [if_pos hd]
    rw [bumpFirst_sum _ _ _ hm_mem]
    omega
  · rw [if_neg hd]
    have hsum : (pushDayRounded log toPush limit d).sum = limit := by
      rcases not_and_or.mp hd with h | h
      · omega
      · exact absurd (not_not.mp h) hne
    have hm30 : 30 ≤ maxOf (pushDayRounded log toPush limit d) := by
      rcases hm_cases.2 with h0 | h30
      · exfalso
        have hall : ∀ x ∈ pushDayRounded log toPush limit d, x = 0 := by
          intro x hx
          have hle := le_maxOf _ x hx
          have hx0 := (helem x hx).1
          omega
        have := List.sum_eq_zero hall
        omega
      · exact h30
    omega

/-- C1 witness: the amended theorem applied to the 17-group Monday log:
S = 480, so the day total is max 480 (480 + 30) = 510. -/
theorem push_weekday_sum_C1_witness :
    (pushDayFinal c1Log (to_push c1Log.entries none) 480 4).sum =
      max 480 ((pushDayRounded c1Log (to_push c1Log.entries none) 480 4).sum
        - maxOf (pushDayRounded c1Log (to_push c1Log.entries none) 480 4) + 30) :=
  push_weekday_sum_C1 c1Log (to_push c1Log.entries none) 480 4
    (by decide) (by decide) (by decide) (by decide)

/-- The weekday range contains no duplicate days. -/
theorem fillEmptyDays_nodup (log : LocalLog) (startD endD : Int) :
    (fillEmptyDays log startD endD).Nodup := by
  apply List.Nodup.filter
  apply List.Nodup.filter
  unfold dateRange
  apply List.Nodup.map
  · intro a b hab
    simpa using hab
  · exact List.nodup_range _

/-- Filtering one synthesized block by date keeps all of it or none of it. -/
theorem filter_fillCopy_block (a srcD d : Int) :
    ∀ (srcE : List LogEntry),
      ((srcE.map (fillCopy a srcD)).filter (fun c => c.date = d)) =
        if a = d then srcE.map (fillCopy a srcD) else [] := by
  intro srcE
  induction srcE with
  | nil => simp
  | cons x xs ih =>
    simp only [List.map_cons, List.filter_cons]
    by_cases h : a = d <;> simp [fillCopy, h, ih]

/-- Filtering the whole synthesized output by an empty day keeps exactly
that day's block; by any other date, nothing. -/
theorem filter_flatMap_fillCopy (srcD d : Int) (srcE : List LogEntry) :
    ∀ (days : List Int), days.Nodup →
      ((days.flatMap (fun d' => srcE.map (fillCopy d' srcD))).filter
        (fun c => c.date = d)).length = (if d ∈ days then srcE.length else 0) := by
  intro days
  induction days with
  | nil => simp
  | cons a rest ih =>
    intro hnd
    simp only [List.flatMap_cons, List.filter_append, List.length_append]
    rw [filter_fillCopy_block, ih hnd.of_cons]
    by_cases h : a = d
    · subst h
      have hnotin : a ∉ rest := (List.nodup_cons.mp hnd).1
      simp [hnotin]
    · by_cases hm : d ∈ rest
      · have hin : d ∈ a :: rest := List.mem_cons_of_mem _ hm
        simp [h, hm, hin]
      · have hnotin : d ∉ a :: rest := by
          intro hcon
          rcases List.mem_cons.mp hcon with h1 | h1
          · exact h h1.symm
          · exact hm h1
        simp [h, hm, hnotin]

/-- A foldl that never shrinks its accumulator keeps it nonempty. -/
theorem dedupKeys_ne_nil (l : List Int) (hl : l ≠ []) : dedupKeys l ≠ [] := by
  have key : ∀ (xs : List Int) (acc : List Int), acc ≠ [] →
      xs.foldl (fun acc d => if acc.contains d then acc else acc ++ [d]) acc ≠ [] := by
    intro xs
    induction xs with
    | nil => intro acc h; exact h
    | cons x rest ih =>
      intro acc h
      rw [List.foldl_cons]
      by_cases hc : acc.contains x = true
      · rw [if_pos hc]
        exact ih acc h
      · rw [if_neg hc]
        exact ih (acc ++ [x]) (by simp)
  cases l with
  | nil => exact absurd rfl hl
  | cons x xs =>
    unfold dedupKeys
    rw [List.foldl_cons]
    rw [if_neg (by simp : ¬ (([] : List Int).contains x = true))]
    exact key xs ([] ++ [x]) (by simp)

/-- The dates-with-entries index is empty exactly when there are no
eligible entries at all. -/
theorem fillDatesWithEntries_nil (log : LocalLog)
    (h : (fillDatesWithEntries log).isEmpty = true) : fillAllEntries log = [] := by
  unfold fillDatesWithEntries at h
  rcases hall : fillAllEntries log with _ | ⟨x, xs⟩
  · rfl
  · exfalso
    rw [hall] at h
    have := dedupKeys_ne_nil ((x :: xs).map (fun e => e.date)) (by simp)
    rw [List.isEmpty_iff] at h
    exact this h

/-- C6 counterexample: eligible entries exist on Monday day 4 (activity
`"a"`) and Wednesday day 6 (activity `"b"`); for the empty Thursday day 7
the nearest prior non-empty day is day 6, yet the backfill tags every
created entry with day 4 and copies day 4's entries. -/
theorem fill_empty_weekdays_C6_counterexample :
    c6Log.entries.filter (fun e => eligibleEntry e && decide (e.date = 6)) ≠ [] ∧
    (6 : Int) < 7 ∧
    ((fill_empty_weekdays c6Log 4 8).2.filter (fun e => e.date = 7)).map
      (fun e => e.filledFrom) = [some 4] ∧
    ((fill_empty_weekdays c6Log 4 8).2.filter (fun e => e.date = 7)).map
      (fun e => e.activity) = ["a"] ∧
    (c6Log.entries.filter (fun e => eligibleEntry e && decide (e.date = 6))).map
      (fun e => e.activity) = ["b"] := by decide

/-- C6 amended: every created entry belongs to an empty weekday of the
range, is unpushed, and is a copy of an eligible entry of the SINGLE source
day — the latest day with eligible entries on or before the first empty
day, or the earliest such day if none — tagged with that source date,
keeping the billed/real minutes, the duration, and the clock start-time
truncated to the whole minute; each empty day receives one copy of each
source-day entry, days outside the empty set receive nothing, and the new
entries are appended to the log. -/
theorem fill_empty_weekdays_C6 (log : LocalLog) (startD endD : Int) :
    (∀ c ∈ (fill_empty_weekdays log startD endD).2,
      c.pushedToKimai = false ∧
      c.date ∈ fillEmptyDays log startD endD ∧
      c.filledFrom = some (fillSourceDate log startD endD) ∧
      ∃ src ∈ fillSourceEntries log startD endD,
        c = fillCopy c.date (fillSourceDate log startD endD) src ∧
        c.billedMinutes = src.billedMinutes ∧
        c.endT - c.beginT = src.endT - src.beginT ∧
        c.beginT % 86400 = src.beginT % 86400 / 60 * 60) ∧
    (∀ d ∈ fillEmptyDays log startD endD,
      ((fill_empty_weekdays log startD endD).2.filter (fun c => c.date = d)).length
        = (fillSourceEntries log startD endD).length) ∧
    (∀ d, d ∉ fillEmptyDays log startD endD →
      (fill_empty_weekdays log startD endD).2.filter (fun c => c.date = d) = []) ∧
    (fill_empty_weekdays log startD endD).1.entries
      = log.entries ++ (fill_empty_weekdays log startD endD).2 := by
  unfold fill_empty_weekdays
  by_cases h1 : (fillEmptyDays log startD endD).isEmpty = true
  · rw [if_pos h1]
    refine ⟨by simp, ?_, by simp, by simp⟩
    intro d hd
    rw [List.isEmpty_iff] at h1
    rw [h1] at hd
    simp at hd
  · rw [if_neg h1]
    by_cases h2 : (fillDatesWithEntries log).isEmpty = true
    · rw [if_pos h2]
      have hsrc : fillSourceEntries log startD endD = [] := by
        unfold fillSourceEntries
        rw [fillDatesWithEntries_nil log h2]
        rfl
      refine ⟨by simp, ?_, by simp, by simp⟩
      intro d hd
      simp [hsrc]
    · rw [if_neg h2]
      refine ⟨?_, ?_, ?_, by simp⟩
      · intro c hc
        simp only at hc
        obtain ⟨d, hd, hcm⟩ := List.mem_flatMap.mp hc
        obtain ⟨src, hsrc, rfl⟩ := List.mem_map.mp hcm
        refine ⟨rfl, hd, rfl, src, hsrc, rfl, rfl, ?_, ?_⟩
        · simp only [fillCopy]
          omega
        · simp only [fillCopy]
          omega
      · intro d hd
        simp only
        rw [filter_flatMap_fillCopy _ _ _ _ (fillEmptyDays_nodup log startD endD)]
        rw [if_pos hd]
      · intro d hd
        simp only
        have := filter_flatMap_fillCopy (fillSourceDate log startD endD) d
          (fillSourceEntries log startD endD) (fillEmptyDays log startD endD)
          (fillEmptyDays_nodup log startD endD)
        rw [if_neg hd] at this
        exact List.length_eq_zero.mp this

/-- C6 witness: on `c6Log`, the created copy of day 4's entry on the empty
Tuesday day 5 satisfies every clause; day 5 receives one copy per source
entry and the non-empty Monday day 4 receives nothing. -/
theorem fill_empty_weekdays_C6_witness :
    ((fillCopy 5 4 c6EntryA).pushedToKimai = false ∧
     (fillCopy 5 4 c6EntryA).date ∈ fillEmptyDays c6Log 4 8 ∧
     (fillCopy 5 4 c6EntryA).filledFrom = some (fillSourceDate c6Log 4 8) ∧
     ∃ src ∈ fillSourceEntries c6Log 4 8,
       fillCopy 5 4 c6EntryA =
         fillCopy (fillCopy 5 4 c6EntryA).date (fillSourceDate c6Log 4 8) src ∧
       (fillCopy 5 4 c6EntryA).billedMinutes = src.billedMinutes ∧
       (fillCopy 5 4 c6EntryA).endT - (fillCopy 5 4 c6EntryA).beginT
         = src.endT - src.beginT ∧
       (fillCopy 5 4 c6EntryA).beginT % 86400 = src.beginT % 86400 / 60 * 60) ∧
    ((fill_empty_weekdays c6Log 4 8).2.filter (fun c => c.date = 5)).length
      = (fillSourceEntries c6Log 4 8).length ∧
    (fill_empty_weekdays c6Log 4 8).2.filter (fun c => c.date = 4) = [] :=
  ⟨(fill_empty_weekdays_C6 c6Log 4 8).1 (fillCopy 5 4 c6EntryA) (by decide),
   (fill_empty_weekdays_C6 c6Log 4 8).2.1 5 (by decide),
   (fill_empty_weekdays_C6 c6Log 4 8).2.2.1 4 (by decide)⟩

end Nectime
